import Mathlib

/-!
Verification of the core copy logic of `copy_files_tool.py`
(repository francis040/FileAutoTransfer).

The three core methods of `FileCopyManager` are embedded as pure Lean
functions:

* `should_copy_file` — the change detector (fast mode: size + truncated
  mtime, hash mode: SHA-256 digest comparison, both digests passed in as
  the results of `get_file_hash`);
* `copy_file_with_progress` — the chunked, resumable, cancellable copy
  engine, modelled over the byte content of the source and target files
  (`List Nat`) and an explicit environment `CopyEnv` recording the value
  of the shared `stop_flag` / `pause_flag` at each poll and the success
  or failure of every fallible file-system call (`os.remove`, opening
  `r+b`, `seek`, `dst.write`);
* `start_copy` — the per-run orchestrator loop, modelled over the list of
  enumerated files, with the per-file results of `should_copy_file` and
  `copy_file_with_progress` supplied as functions of the file index so
  the orchestration theorems hold for every behaviour of the callees.

Side effects are reified in the result records: progress-callback
invocations (`events`), appended log lines (`logs`), the final byte
content of the target (`target`, `none` when the file was deleted or
never existed), whether the source file was removed, whether the handles
were closed, which completion messages were emitted and whether
`save_hash_db` was called.  Wall-clock speed values are nondeterministic
in the Python code and are supplied by the environment (`speedAt`); the
hash-db in-memory update after a hash-mode copy and the audit log lines
of `start_copy` are not tracked, since no claim refers to them.
-/

/-- Outcome tag of `FileCopyManager.copy_file_with_progress`: the Python
method returns `True` (ok), `None` (cancelled) or `False` (failed) as the
first component of its result pair. -/
inductive CopyStatus where
  | ok : CopyStatus
  | cancelled : CopyStatus
  | failed : CopyStatus
deriving DecidableEq, Repr

/-- Observable result of one `copy_file_with_progress` invocation:
the returned pair is `(status, msg)`; `target` is the byte content of the
target file afterwards (`none` when it does not exist); `events` collects
the `progress_callback(percent, speed)` invocations in order; `logs`
collects the log lines appended by this invocation. -/
structure CopyResult where
  status : CopyStatus
  msg : String
  target : Option (List Nat)
  srcClosed : Bool
  dstClosed : Bool
  sourceRemoved : Bool
  events : List (Nat × Nat)
  logs : List String
deriving DecidableEq, Repr

/-- Environment of one `copy_file_with_progress` invocation.  The shared
mutable flags are written asynchronously by the UI thread, so each poll
may observe a different value: `stopA i` is the value of `stop_flag` read
at the top of loop iteration `i`, `pauseA i` the value of `pause_flag`
read next, and `stopB i` the value of `stop_flag` re-read after the pause
wait loop of iteration `i` exits.  `faultAt i` injects an I/O exception
(with its `str(e)` detail) at the `dst.write` of iteration `i`.  The
`...Ok` flags record whether the corresponding fallible file-system call
succeeds, and the `...Err` strings are the exception details used in the
log lines when it does not. -/
structure CopyEnv where
  stopA : Nat → Bool
  stopB : Nat → Bool
  pauseA : Nat → Bool
  faultAt : Nat → Option String
  speedAt : Nat → Nat
  removeStaleOk : Bool
  openRplusOk : Bool
  seekOk : Bool
  removeCancelOk : Bool
  removeSourceOk : Bool
  cancelRemoveErr : String
  removeSourceErr : String

/-- An environment is benign when the stop and pause flags are never
raised, no I/O exception is injected in the read/write loop, and the
file-system calls of the resume set-up (stale-target removal, opening the
target `r+b`, seeking) all succeed. -/
def CopyEnv.benign (env : CopyEnv) : Prop :=
  (∀ i, env.stopA i = false) ∧ (∀ i, env.pauseA i = false) ∧
    (∀ i, env.faultAt i = none) ∧ env.removeStaleOk = true ∧
    env.openRplusOk = true ∧ env.seekOk = true

/-- Fixed chunk size of the engine: `chunk_size = 4 * 1024 * 1024`. -/
def chunk_size : Nat := 4 * 1024 * 1024

/-- Decomposition of a byte list into consecutive chunks of `n + 1`
bytes (the last chunk may be shorter), with an explicit fuel argument to
keep the recursion structural; `fuel = l.length` always suffices. -/
def chunksOfAux (n : Nat) : Nat → List Nat → List (List Nat)
  | 0, _ => []
  | _ + 1, [] => []
  | fuel + 1, a :: l => (a :: l.take n) :: chunksOfAux n fuel (l.drop n)

/-- The successive results of `src.read(chunk_size)`: the remaining bytes
split into chunks of `chunk_size` bytes each, the last one possibly
shorter, and no trailing empty chunk. -/
def chunks (l : List Nat) : List (List Nat) :=
  chunksOfAux (chunk_size - 1) l.length l

/-- Clean-up performed when the stop flag is observed inside the chunk
loop (either at the top-of-loop check or at the re-check after a pause
wait): `dst.close()` is called (the source handle is left open on this
path), the partial target is deleted if `os.remove` succeeds — which is
logged — or left in place with the failure logged otherwise, and the pair
`(None, "已取消: 用户停止")` is returned in both cases. -/
def stopCleanup (env : CopyEnv) (leftover : List Nat)
    (events : List (Nat × Nat)) (lgs : List String)
    (target_file : String) : CopyResult :=
  { status := CopyStatus.cancelled, msg := "已取消: 用户停止",
    target := if env.removeCancelOk then none else some leftover,
    srcClosed := false, dstClosed := true, sourceRemoved := false,
    events := events,
    logs := lgs ++ [if env.removeCancelOk
      then "已删除不完整目标文件: " ++ target_file
      else "删除不完整目标文件失败: " ++ target_file ++ " - "
        ++ env.cancelRemoveErr] }

/-- Completion path after the read loop exhausts the source: close both
handles, copy timestamps (`shutil.copystat`, no observable effect here),
emit the final `progress_callback(100, 0)`, delete the source file when
`delete_after_copy` is set (a deletion failure is logged and swallowed),
and return `(True, "复制成功")`. -/
def finishUp (env : CopyEnv) (delete_after_copy : Bool)
    (finalContent : List Nat) (events : List (Nat × Nat))
    (lgs : List String) (source_file : String) : CopyResult :=
  { status := CopyStatus.ok, msg := "复制成功",
    target := some finalContent,
    srcClosed := true, dstClosed := true,
    sourceRemoved := delete_after_copy && env.removeSourceOk,
    events := events ++ [(100, 0)],
    logs := lgs ++ (if delete_after_copy then
        (if env.removeSourceOk then ["已删除源文件: " ++ source_file]
         else ["删除源文件失败: " ++ source_file ++ " - "
           ++ env.removeSourceErr])
      else []) }

/-- The chunk loop of `copy_file_with_progress`: at each iteration check
the stop flag first, then the pause flag (the pause wait exits when the
pause clears or stop is raised, after which the stop flag is re-read as
`stopB`), then read a chunk; an empty read breaks to the completion path;
otherwise write, flush and fsync the chunk (an injected write exception
jumps to the handler that closes both handles, leaves the partial target
in place and returns `(False, str(e))`), and report
`progress_callback(percent, speed)` with
`percent = total_copied * 100 / file_size` (or `100` for an empty
source). -/
def copyLoop (env : CopyEnv) (delete_after_copy : Bool)
    (base : List Nat) (file_size : Nat)
    (source_file target_file : String) :
    List (List Nat) → List Nat → Nat → List (Nat × Nat) → List String →
      CopyResult
  | chunksLeft, written, i, events, lgs =>
    if env.stopA i then
      stopCleanup env (base ++ written) events lgs target_file
    else if env.pauseA i && env.stopB i then
      stopCleanup env (base ++ written) events lgs target_file
    else
      match chunksLeft with
      | [] =>
        finishUp env delete_after_copy (base ++ written) events lgs
          source_file
      | c :: rest =>
        match env.faultAt i with
        | some d =>
          { status := CopyStatus.failed, msg := d,
            target := some (base ++ written),
            srcClosed := true, dstClosed := true, sourceRemoved := false,
            events := events, logs := lgs }
        | none =>
          copyLoop env delete_after_copy base file_size source_file
            target_file rest (written ++ c) (i + 1)
            (events ++ [(if file_size > 0
                then (base.length + (written ++ c).length) * 100 / file_size
                else 100,
              env.speedAt i)])
            lgs

/-- Size of the already-present partial target
(`existing_size = os.path.getsize(target_file)` when it exists, else 0). -/
def resumeOffset0 (tgt0 : Option (List Nat)) : Nat :=
  (tgt0.getD []).length

/-- Resume offset after the stale-target check: a partial target larger
than the source is removed (restart from offset 0); if the removal
raises, the exception is swallowed and the oversized offset is kept. -/
def afterStale (env : CopyEnv) (src : List Nat)
    (tgt0 : Option (List Nat)) : Nat :=
  if resumeOffset0 tgt0 > src.length then
    (if env.removeStaleOk then 0 else resumeOffset0 tgt0)
  else resumeOffset0 tgt0

/-- Byte content already in the target when the chunk loop starts: the
existing partial content when resuming (`r+b` open and both seeks
succeeded), and empty otherwise (fresh `wb` open, a failed `r+b` open
falling back to `wb`, or a failed seek followed by `truncate(0)`). -/
def openBase (env : CopyEnv) (src : List Nat)
    (tgt0 : Option (List Nat)) : List Nat :=
  if afterStale env src tgt0 > 0 then
    (if env.openRplusOk then (if env.seekOk then tgt0.getD [] else [])
     else [])
  else []

/-- Embedding of `FileCopyManager.copy_file_with_progress`: `src` is the
source byte content, `tgt0` the byte content of the target before the
call (`none` when the target does not exist).  Set-up-phase exceptions
caught by the outermost handler (`os.makedirs`, `os.path.getsize`,
opening the source) are not modelled; every claim concerns the resume
logic, the chunk loop and the completion path. -/
def copy_file_with_progress (env : CopyEnv) (delete_after_copy : Bool)
    (src : List Nat) (tgt0 : Option (List Nat))
    (source_file target_file : String) : CopyResult :=
  copyLoop env delete_after_copy (openBase env src tgt0) src.length
    source_file target_file
    (chunks (src.drop (openBase env src tgt0).length)) [] 0 [] []

/-- Result of `os.stat`: file size in bytes and `st_mtime` in seconds.
The Python value is a float; it is modelled as a rational number. -/
structure PyStat where
  st_size : Nat
  st_mtime : ℚ
deriving DecidableEq, Repr

/-- Python `int()` applied to a numeric value: truncation toward zero. -/
def pyInt (q : ℚ) : ℤ :=
  if 0 ≤ q then ⌊q⌋ else -⌊-q⌋

/-- Embedding of `FileCopyManager.should_copy_file`.  `target_exists` is
`os.path.exists(target_file)`; `stats` is the pair of `os.stat` results
(`none` when reading either raises); `src_hash` and `dst_hash` are the
results of `get_file_hash` on the two files (`none` on a hash failure),
consulted only in hash mode. -/
def should_copy_file (detection_mode : String) (target_exists : Bool)
    (stats : Option (PyStat × PyStat))
    (src_hash dst_hash : Option String) : Bool × String :=
  if !target_exists then (true, "新文件")
  else
    match stats with
    | none => (true, "元数据读取失败")
    | some (s, t) =>
      if detection_mode = "fast" then
        (if s.st_size = t.st_size ∧ pyInt s.st_mtime = pyInt t.st_mtime
         then (false, "文件相同(大小+时间)")
         else (true, "大小或时间不同"))
      else
        match src_hash, dst_hash with
        | none, _ => (true, "哈希计算失败，需复制")
        | some _, none => (true, "哈希计算失败，需复制")
        | some h1, some h2 =>
          if h1 ≠ h2 then (true, "文件已更新(哈希不同)")
          else (false, "文件相同(哈希)")

/-- Path of the audit log file, as interpolated into the completion
summary (the absolute prefix is irrelevant to every claim). -/
def LOG_FILE : String := "copy_log.txt"

/-- Summary emitted through `complete_callback` when the outer loop
observes the stop flag between files. -/
def stopSummary (c s f : Nat) : String :=
  "已停止。复制: " ++ toString c ++ ", 跳过: " ++ toString s
    ++ ", 失败: " ++ toString f

/-- Summary emitted through `complete_callback` when the file list is
exhausted. -/
def finalSummary (c s f : Nat) : String :=
  "复制完成！\n\n复制: " ++ toString c ++ " 个文件\n跳过: "
    ++ toString s ++ " 个文件\n失败: " ++ toString f
    ++ " 个文件\n\n日志文件: " ++ LOG_FILE

/-- Observable result of one `start_copy` run: the final counters, the
list of `complete_callback` invocations in order, and whether
`save_hash_db` was called before returning. -/
structure RunResult where
  copied : Nat
  skipped : Nat
  failed : Nat
  completions : List String
  savedHashDb : Bool
deriving DecidableEq, Repr

/-- The per-file loop of `start_copy` over the remaining files, carrying
the 0-based index of the next file and the three counters.  `outStop j`
is the value of `stop_flag` read at the top of the iteration for file
`j`; `verdict j` is the result of `should_copy_file` for file `j`; and
`copyRes j` is the `(status, msg)` pair returned by
`copy_file_with_progress` for file `j` when a copy is required.  The
pause wait between files only delays execution and is not modelled.  A
`True` copy result increments `copied`, a `False` result increments
`failed`, a `None` (cancelled) result increments no counter, and a skip
verdict increments `skipped`.  After the last file, `save_hash_db()` is
called and the completion summary is emitted; on the stop path the stop
summary is emitted and the function returns at once. -/
def startLoop (outStop : Nat → Bool) (verdict : Nat → Bool × String)
    (copyRes : Nat → CopyStatus × String) :
    List String → Nat → Nat → Nat → Nat → RunResult
  | [], _, c, s, f =>
    { copied := c, skipped := s, failed := f,
      completions := [finalSummary c s f], savedHashDb := true }
  | _ :: rest, idx, c, s, f =>
    if outStop idx then
      { copied := c, skipped := s, failed := f,
        completions := [stopSummary c s f], savedHashDb := false }
    else
      if (verdict idx).1 then
        match (copyRes idx).1 with
        | CopyStatus.ok =>
          startLoop outStop verdict copyRes rest (idx + 1) (c + 1) s f
        | CopyStatus.cancelled =>
          startLoop outStop verdict copyRes rest (idx + 1) c s f
        | CopyStatus.failed =>
          startLoop outStop verdict copyRes rest (idx + 1) c s (f + 1)
      else startLoop outStop verdict copyRes rest (idx + 1) c (s + 1) f

/-- Embedding of `FileCopyManager.start_copy`: `files` is the list
returned by `get_all_files`; on an empty list the run completes at once
with the no-files message and without calling `save_hash_db`. -/
def start_copy (outStop : Nat → Bool) (verdict : Nat → Bool × String)
    (copyRes : Nat → CopyStatus × String) (files : List String) :
    RunResult :=
  if files.length = 0 then
    { copied := 0, skipped := 0, failed := 0,
      completions := ["源目录中没有文件"], savedHashDb := false }
  else startLoop outStop verdict copyRes files 0 0 0 0

/-- One step of the counter evolution of `startLoop` at file index
`idx`. -/
def countStep (verdict : Nat → Bool × String)
    (copyRes : Nat → CopyStatus × String) (idx : Nat) :
    Nat × Nat × Nat → Nat × Nat × Nat
  | (c, s, f) =>
    if (verdict idx).1 then
      match (copyRes idx).1 with
      | CopyStatus.ok => (c + 1, s, f)
      | CopyStatus.cancelled => (c, s, f)
      | CopyStatus.failed => (c, s, f + 1)
    else (c, s + 1, f)

/-- Counter values after processing `k` consecutive files starting at
index `idx`, from accumulator `acc`. -/
def countsFrom (verdict : Nat → Bool × String)
    (copyRes : Nat → CopyStatus × String) :
    Nat → Nat → Nat × Nat × Nat → Nat × Nat × Nat
  | _, 0, acc => acc
  | idx, k + 1, acc =>
    countsFrom verdict copyRes (idx + 1) k (countStep verdict copyRes idx acc)

/-- Run result of the stop path of `start_copy`, as a function of the
counters at the moment the stop flag is observed. -/
def stopRun (p : Nat × Nat × Nat) : RunResult :=
  { copied := p.1, skipped := p.2.1, failed := p.2.2,
    completions := [stopSummary p.1 p.2.1 p.2.2], savedHashDb := false }

/-- A concrete fully benign environment, used by the witnesses. -/
def quietEnv : CopyEnv :=
  { stopA := fun _ => false, stopB := fun _ => false,
    pauseA := fun _ => false, faultAt := fun _ => none,
    speedAt := fun _ => 0,
    removeStaleOk := true, openRplusOk := true, seekOk := true,
    removeCancelOk := true, removeSourceOk := true,
    cancelRemoveErr := "errC", removeSourceErr := "errS" }

/-- Environment in which the stop flag is first observed at chunk-loop
iteration 1 and the deletion of the partial target fails. -/
def stopAt1Env : CopyEnv :=
  { quietEnv with
    stopA := fun i => decide (i = 1),
    removeCancelOk := false }

/-- Environment in which the stop flag is raised from the start and the
partial-target deletion succeeds. -/
def cancelOkEnv : CopyEnv :=
  { quietEnv with stopA := fun _ => true }

/-- Environment in which the stop flag is raised from the start and the
partial-target deletion fails. -/
def cancelFailEnv : CopyEnv :=
  { quietEnv with
    stopA := fun _ => true,
    removeCancelOk := false }

/-- Environment injecting an I/O exception at the first write. -/
def faultEnv : CopyEnv :=
  { quietEnv with
    faultAt := fun i => if i = 0 then some ("disk full") else none }

/-- Environment in which the deletion of the source file fails. -/
def rmSourceFailEnv : CopyEnv :=
  { quietEnv with removeSourceOk := false }

lemma quietEnv_benign : quietEnv.benign :=
  ⟨fun _ => rfl, fun _ => rfl, fun _ => rfl, rfl, rfl, rfl⟩

lemma chunksOfAux_flatten (n : Nat) :
    ∀ (fuel : Nat) (l : List Nat), l.length ≤ fuel →
      (chunksOfAux n fuel l).flatten = l := by
  intro fuel
  induction fuel with
  | zero =>
    intro l h
    have hl : l = [] := List.eq_nil_of_length_eq_zero (Nat.le_zero.mp h)
    subst hl
    rfl
  | succ fuel ih =>
    intro l h
    cases l with
    | nil => rfl
    | cons a l2 =>
      have hlen : (l2.drop n).length ≤ fuel := by
        rw [List.length_drop]
        simp only [List.length_cons] at h
        omega
      simp [chunksOfAux, List.flatten_cons, ih _ hlen, List.take_append_drop]

lemma chunks_flatten (l : List Nat) : (chunks l).flatten = l :=
  chunksOfAux_flatten _ _ _ (Nat.le_refl _)

lemma copyLoop_run_to_end (env : CopyEnv)
    (hs : ∀ i, env.stopA i = false) (hp : ∀ i, env.pauseA i = false)
    (hf : ∀ i, env.faultAt i = none)
    (del : Bool) (base : List Nat) (fs : Nat) (sf tf : String) :
    ∀ (cs : List (List Nat)) (written : List Nat) (i : Nat)
      (evs : List (Nat × Nat)) (lgs : List String),
      ∃ evs2,
        copyLoop env del base fs sf tf cs written i evs lgs =
          finishUp env del (base ++ (written ++ cs.flatten)) evs2 lgs sf := by
  intro cs
  induction cs with
  | nil =>
    intro written i evs lgs
    refine ⟨evs, ?_⟩
    simp [copyLoop, hs i, hp i]
  | cons c rest ih =>
    intro written i evs lgs
    obtain ⟨evs2, heq⟩ := ih (written ++ c) (i + 1)
      (evs ++ [(if fs > 0
          then (base.length + (written ++ c).length) * 100 / fs
          else 100, env.speedAt i)]) lgs
    refine ⟨evs2, ?_⟩
    simp only [copyLoop, hs i, hp i, hf i, Bool.false_and, if_false,
      Bool.false_eq_true, ite_false]
    rw [heq]
    simp [List.append_assoc]

lemma openBase_resume (env : CopyEnv) (src t : List Nat)
    (hopen : env.openRplusOk = true) (hseek : env.seekOk = true)
    (hle : t.length ≤ src.length) :
    openBase env src (some t) = t := by
  have hnot : ¬ (resumeOffset0 (some t) > src.length) := by
    simp [resumeOffset0]
    omega
  by_cases ht : t = []
  · subst ht
    simp [openBase, afterStale, resumeOffset0]
  · have hpos : 0 < t.length := List.length_pos.mpr ht
    have hafter : afterStale env src (some t) = t.length := by
      unfold afterStale
      rw [if_neg hnot]
      rfl
    unfold openBase
    rw [hafter]
    simp [hpos, hopen, hseek]

/-- C2: resuming from a partial target that is a byte prefix of the
source (its length at most the source size), with no stop or pause
raised and no I/O fault, the engine seeks both streams to the partial
length, transfers exactly the remaining bytes, and the final target is
byte-identical to the source. -/
theorem C2_resume_correct (env : CopyEnv) (del : Bool)
    (t rest src : List Nat) (sf tf : String)
    (hben : env.benign) (hsrc : src = t ++ rest) :
    (copy_file_with_progress env del src (some t) sf tf).status
        = CopyStatus.ok ∧
    (copy_file_with_progress env del src (some t) sf tf).msg = "复制成功" ∧
    (copy_file_with_progress env del src (some t) sf tf).target
        = some src := by
  obtain ⟨hs, hp, hf, hstale, hopen, hseek⟩ := hben
  have hle : t.length ≤ src.length := by
    subst hsrc; simp
  have hbase : openBase env src (some t) = t :=
    openBase_resume env src t hopen hseek hle
  have hdrop : src.drop t.length = rest := by
    subst hsrc; exact List.drop_left t rest
  obtain ⟨evs2, heq⟩ := copyLoop_run_to_end env hs hp hf del t src.length
    sf tf (chunks rest) [] 0 [] []
  unfold copy_file_with_progress
  rw [hbase, hdrop, heq]
  subst hsrc
  simp [finishUp, chunks_flatten]

theorem C2_witness :
    (copy_file_with_progress quietEnv false [1, 2, 3] (some [1]) "s" "t").status
        = CopyStatus.ok ∧
    (copy_file_with_progress quietEnv false [1, 2, 3] (some [1]) "s" "t").msg
        = "复制成功" ∧
    (copy_file_with_progress quietEnv false [1, 2, 3] (some [1]) "s" "t").target
        = some [1, 2, 3] :=
  C2_resume_correct quietEnv false [1] [2, 3] [1, 2, 3] "s" "t"
    quietEnv_benign rfl

/-- C6: when an existing partial target is strictly larger than the
source (a stale partial from a different source version) and no fault,
stop or pause occurs, the engine removes it, restarts from offset 0 and
produces a target byte-identical to the source. -/
theorem C6_stale_discard (env : CopyEnv) (del : Bool)
    (src t : List Nat) (sf tf : String)
    (hben : env.benign) (hgt : src.length < t.length) :
    (copy_file_with_progress env del src (some t) sf tf).status
        = CopyStatus.ok ∧
    (copy_file_with_progress env del src (some t) sf tf).target
        = some src := by
  obtain ⟨hs, hp, hf, hstale, hopen, hseek⟩ := hben
  have hbase : openBase env src (some t) = [] := by
    have hafter : afterStale env src (some t) = 0 := by
      unfold afterStale
      rw [if_pos (by simpa [resumeOffset0] using hgt)]
      rw [if_pos hstale]
    unfold openBase
    rw [hafter]
    simp
  obtain ⟨evs2, heq⟩ := copyLoop_run_to_end env hs hp hf del [] src.length
    sf tf (chunks src) [] 0 [] []
  unfold copy_file_with_progress
  rw [hbase]
  simp only [List.length_nil, List.drop_zero]
  rw [heq]
  simp [finishUp, chunks_flatten]

theorem C6_witness :
    (copy_file_with_progress quietEnv false [1, 2] (some [9, 9, 9]) "s" "t").status
        = CopyStatus.ok ∧
    (copy_file_with_progress quietEnv false [1, 2] (some [9, 9, 9]) "s" "t").target
        = some [1, 2] :=
  C6_stale_discard quietEnv false [1, 2] [9, 9, 9] "s" "t"
    quietEnv_benign (by decide)

/-- C8: on a zero-length source with no stop, pause or fault, the chunk
loop transfers no chunks, the only progress notification is
`(100, 0)` and the outcome is success. -/
theorem C8_empty_source (env : CopyEnv) (del : Bool)
    (tgt0 : Option (List Nat)) (sf tf : String) (hben : env.benign) :
    (copy_file_with_progress env del [] tgt0 sf tf).events = [(100, 0)] ∧
    (copy_file_with_progress env del [] tgt0 sf tf).status
        = CopyStatus.ok ∧
    (copy_file_with_progress env del [] tgt0 sf tf).target = some [] := by
  obtain ⟨hs, hp, hf, hstale, hopen, hseek⟩ := hben
  have hafter : afterStale env [] tgt0 = 0 := by
    unfold afterStale
    split <;> simp_all [resumeOffset0]
  have hbase : openBase env [] tgt0 = [] := by
    unfold openBase
    rw [hafter]
    simp
  unfold copy_file_with_progress
  rw [hbase]
  simp only [List.length_nil, List.drop_zero]
  have hch : chunks ([] : List Nat) = [] := rfl
  rw [hch]
  simp [copyLoop, hs 0, hp 0, finishUp]

theorem C8_witness :
    (copy_file_with_progress quietEnv false [] (some [9]) "s" "t").events
        = [(100, 0)] ∧
    (copy_file_with_progress quietEnv false [] (some [9]) "s" "t").status
        = CopyStatus.ok ∧
    (copy_file_with_progress quietEnv false [] (some [9]) "s" "t").target
        = some [] :=
  C8_empty_source quietEnv false (some [9]) "s" "t" quietEnv_benign

lemma copyLoop_stop_at (env : CopyEnv) (del : Bool) (base : List Nat)
    (fs : Nat) (sf tf : String) :
    ∀ (k : Nat) (cs : List (List Nat)) (written : List Nat) (i : Nat)
      (evs : List (Nat × Nat)) (lgs : List String),
      k ≤ cs.length →
      (∀ j, j < k → env.stopA (i + j) = false ∧ env.pauseA (i + j) = false
        ∧ env.faultAt (i + j) = none) →
      env.stopA (i + k) = true →
      ∃ evs2, copyLoop env del base fs sf tf cs written i evs lgs =
        stopCleanup env (base ++ (written ++ (cs.take k).flatten)) evs2
          lgs tf := by
  intro k
  induction k with
  | zero =>
    intro cs written i evs lgs hk hben hstop
    rw [Nat.add_zero] at hstop
    refine ⟨evs, ?_⟩
    rw [copyLoop.eq_def]
    simp [hstop]
  | succ k ih =>
    intro cs written i evs lgs hk hben hstop
    cases cs with
    | nil => simp at hk
    | cons c rest =>
      obtain ⟨h0s, h0p, h0f⟩ := by
        have h := hben 0 (Nat.succ_pos k)
        rw [Nat.add_zero] at h
        exact h
      have hben2 : ∀ j, j < k → env.stopA (i + 1 + j) = false
          ∧ env.pauseA (i + 1 + j) = false
          ∧ env.faultAt (i + 1 + j) = none := by
        intro j hj
        have h := hben (j + 1) (by omega)
        rw [show i + (j + 1) = i + 1 + j by omega] at h
        exact h
      have hstop2 : env.stopA (i + 1 + k) = true := by
        rw [show i + 1 + k = i + (k + 1) by omega]
        exact hstop
      obtain ⟨evs2, heq⟩ := ih rest (written ++ c) (i + 1)
        (evs ++ [(if fs > 0
            then (base.length + (written ++ c).length) * 100 / fs
            else 100, env.speedAt i)]) lgs
        (by simpa using hk) hben2 hstop2
      refine ⟨evs2, ?_⟩
      simp only [copyLoop, h0s, h0p, h0f, Bool.false_and, Bool.false_eq_true,
        ite_false]
      rw [heq]
      simp [List.append_assoc, List.take_succ_cons]

lemma copyLoop_fault_at (env : CopyEnv) (del : Bool) (base : List Nat)
    (fs : Nat) (sf tf : String) (d : String) :
    ∀ (k : Nat) (cs : List (List Nat)) (written : List Nat) (i : Nat)
      (evs : List (Nat × Nat)) (lgs : List String),
      k < cs.length →
      (∀ j, j ≤ k → env.stopA (i + j) = false ∧ env.pauseA (i + j) = false) →
      (∀ j, j < k → env.faultAt (i + j) = none) →
      env.faultAt (i + k) = some d →
      ∃ evs2, copyLoop env del base fs sf tf cs written i evs lgs =
        { status := CopyStatus.failed, msg := d,
          target := some (base ++ (written ++ (cs.take k).flatten)),
          srcClosed := true, dstClosed := true, sourceRemoved := false,
          events := evs2, logs := lgs } := by
  intro k
  induction k with
  | zero =>
    intro cs written i evs lgs hk hflag hpre hfault
    cases cs with
    | nil => simp at hk
    | cons c rest =>
      obtain ⟨h0s, h0p⟩ := by
        have h := hflag 0 (Nat.le_refl 0)
        rw [Nat.add_zero] at h
        exact h
      rw [Nat.add_zero] at hfault
      refine ⟨evs, ?_⟩
      simp [copyLoop, h0s, h0p, hfault]
  | succ k ih =>
    intro cs written i evs lgs hk hflag hpre hfault
    cases cs with
    | nil => simp at hk
    | cons c rest =>
      obtain ⟨h0s, h0p⟩ := by
        have h := hflag 0 (Nat.zero_le _)
        rw [Nat.add_zero] at h
        exact h
      have h0f : env.faultAt i = none := by
        have h := hpre 0 (Nat.succ_pos k)
        rw [Nat.add_zero] at h
        exact h
      have hflag2 : ∀ j, j ≤ k → env.stopA (i + 1 + j) = false
          ∧ env.pauseA (i + 1 + j) = false := by
        intro j hj
        have h := hflag (j + 1) (by omega)
        rw [show i + (j + 1) = i + 1 + j by omega] at h
        exact h
      have hpre2 : ∀ j, j < k → env.faultAt (i + 1 + j) = none := by
        intro j hj
        have h := hpre (j + 1) (by omega)
        rw [show i + (j + 1) = i + 1 + j by omega] at h
        exact h
      have hfault2 : env.faultAt (i + 1 + k) = some d := by
        rw [show i + 1 + k = i + (k + 1) by omega]
        exact hfault
      obtain ⟨evs2, heq⟩ := ih rest (written ++ c) (i + 1)
        (evs ++ [(if fs > 0
            then (base.length + (written ++ c).length) * 100 / fs
            else 100, env.speedAt i)]) lgs
        (by simpa using hk) hflag2 hpre2 hfault2
      refine ⟨evs2, ?_⟩
      simp only [copyLoop, h0s, h0p, h0f, Bool.false_and, Bool.false_eq_true,
        ite_false]
      rw [heq]
      simp [List.append_assoc, List.take_succ_cons]

/-- C3 (counterexample): with the stop flag observed in the chunk loop,
a run in which the partial-target deletion succeeds and a run in which it
fails return the same message `已取消: 用户停止` — the returned message
does not distinguish the two — and the source handle is not closed on
this path. -/
theorem C3_counterexample :
    (copy_file_with_progress cancelOkEnv false [7] none ("s") ("t")).target
        = none ∧
    (copy_file_with_progress cancelFailEnv false [7] none ("s") ("t")).target
        = some [] ∧
    (copy_file_with_progress cancelOkEnv false [7] none ("s") ("t")).msg
        = (copy_file_with_progress cancelFailEnv false [7] none ("s") ("t")).msg ∧
    (copy_file_with_progress cancelOkEnv false [7] none ("s") ("t")).srcClosed
        = false := by
  decide

/-- C3 (amended): whenever the stop flag is first observed at iteration
`k` of the chunk loop, the engine closes the destination handle (the
source handle is left open), deletes the partial target when `os.remove`
succeeds and leaves it in place when the deletion fails, and returns the
cancelled outcome with the fixed message `已取消: 用户停止`; deletion
success versus failure is surfaced in the appended log line, not in the
returned message. -/
theorem C3_amended_thm (env : CopyEnv) (del : Bool) (base : List Nat)
    (fs : Nat) (sf tf : String) (k : Nat) (cs : List (List Nat))
    (written : List Nat) (i : Nat) (evs : List (Nat × Nat))
    (lgs : List String)
    (hk : k ≤ cs.length)
    (hben : ∀ j, j < k → env.stopA (i + j) = false
      ∧ env.pauseA (i + j) = false ∧ env.faultAt (i + j) = none)
    (hstop : env.stopA (i + k) = true) :
    (copyLoop env del base fs sf tf cs written i evs lgs).status
        = CopyStatus.cancelled ∧
    (copyLoop env del base fs sf tf cs written i evs lgs).msg
        = "已取消: 用户停止" ∧
    (copyLoop env del base fs sf tf cs written i evs lgs).dstClosed
        = true ∧
    (copyLoop env del base fs sf tf cs written i evs lgs).srcClosed
        = false ∧
    (copyLoop env del base fs sf tf cs written i evs lgs).target
        = (if env.removeCancelOk then none
           else some (base ++ (written ++ (cs.take k).flatten))) ∧
    (copyLoop env del base fs sf tf cs written i evs lgs).logs
        = lgs ++ [if env.removeCancelOk
            then "已删除不完整目标文件: " ++ tf
            else "删除不完整目标文件失败: " ++ tf ++ " - "
              ++ env.cancelRemoveErr] := by
  obtain ⟨evs2, heq⟩ := copyLoop_stop_at env del base fs sf tf k cs written
    i evs lgs hk hben hstop
  rw [heq]
  cases h : env.removeCancelOk <;> simp [stopCleanup, h]

theorem C3_witness :
    (copyLoop stopAt1Env false [] 2 "s" "t" [[5], [6]] [] 0 [] []).status
        = CopyStatus.cancelled ∧
    (copyLoop stopAt1Env false [] 2 "s" "t" [[5], [6]] [] 0 [] []).msg
        = "已取消: 用户停止" ∧
    (copyLoop stopAt1Env false [] 2 "s" "t" [[5], [6]] [] 0 [] []).dstClosed
        = true ∧
    (copyLoop stopAt1Env false [] 2 "s" "t" [[5], [6]] [] 0 [] []).srcClosed
        = false ∧
    (copyLoop stopAt1Env false [] 2 "s" "t" [[5], [6]] [] 0 [] []).target
        = some [5] ∧
    (copyLoop stopAt1Env false [] 2 "s" "t" [[5], [6]] [] 0 [] []).logs
        = ["删除不完整目标文件失败: t - errC"] := by
  obtain ⟨h1, h2, h3, h4, h5, h6⟩ := C3_amended_thm stopAt1Env false [] 2
    "s" "t" 1 [[5], [6]] [] 0 [] [] (by decide)
    (by
      intro j hj
      have hj0 : j = 0 := by omega
      subst hj0
      exact ⟨rfl, rfl, rfl⟩)
    rfl
  exact ⟨h1, h2, h3, h4, h5.trans (by decide), h6.trans (by decide)⟩

/-- C7: when an I/O exception with detail `d` is raised at the write of
chunk-loop iteration `k` and no stop or pause was ever requested, the
engine closes both handles, leaves the partial target in place and
returns the failed outcome carrying `d`. -/
theorem C7_fault_leaves_target (env : CopyEnv) (del : Bool)
    (src : List Nat) (tgt0 : Option (List Nat)) (sf tf : String)
    (k : Nat) (d : String)
    (hflag : ∀ j, env.stopA j = false ∧ env.pauseA j = false)
    (hpre : ∀ j, j < k → env.faultAt j = none)
    (hfault : env.faultAt k = some d)
    (hk : k < (chunks (src.drop (openBase env src tgt0).length)).length) :
    (copy_file_with_progress env del src tgt0 sf tf).status
        = CopyStatus.failed ∧
    (copy_file_with_progress env del src tgt0 sf tf).msg = d ∧
    (copy_file_with_progress env del src tgt0 sf tf).target
        = some (openBase env src tgt0
            ++ ((chunks (src.drop (openBase env src tgt0).length)).take
              k).flatten) ∧
    (copy_file_with_progress env del src tgt0 sf tf).srcClosed = true ∧
    (copy_file_with_progress env del src tgt0 sf tf).dstClosed = true := by
  obtain ⟨evs2, heq⟩ := copyLoop_fault_at env del (openBase env src tgt0)
    src.length sf tf d k
    (chunks (src.drop (openBase env src tgt0).length)) [] 0 [] [] hk
    (fun j _ => by simpa using hflag j)
    (fun j hj => by simpa using hpre j hj)
    (by simpa using hfault)
  unfold copy_file_with_progress
  rw [heq]
  simp

theorem C7_witness :
    (copy_file_with_progress faultEnv false [1, 2] none ("s") ("t")).status
        = CopyStatus.failed ∧
    (copy_file_with_progress faultEnv false [1, 2] none ("s") ("t")).msg
        = "disk full" ∧
    (copy_file_with_progress faultEnv false [1, 2] none ("s") ("t")).target
        = some [] ∧
    (copy_file_with_progress faultEnv false [1, 2] none ("s") ("t")).srcClosed
        = true ∧
    (copy_file_with_progress faultEnv false [1, 2] none ("s") ("t")).dstClosed
        = true := by
  obtain ⟨h1, h2, h3, h4, h5⟩ := C7_fault_leaves_target faultEnv false
    [1, 2] none ("s") ("t") 0 "disk full" (fun j => ⟨rfl, rfl⟩)
    (by omega) rfl (by decide)
  exact ⟨h1, h2, h3.trans (by decide), h4, h5⟩

lemma copyLoop_source_removed (env : CopyEnv) (del : Bool)
    (base : List Nat) (fs : Nat) (sf tf : String) :
    ∀ (cs : List (List Nat)) (written : List Nat) (i : Nat)
      (evs : List (Nat × Nat)) (lgs : List String),
      (copyLoop env del base fs sf tf cs written i evs lgs).sourceRemoved
          = true →
      del = true ∧ env.removeSourceOk = true ∧
        (copyLoop env del base fs sf tf cs written i evs lgs).status
          = CopyStatus.ok := by
  intro cs
  induction cs with
  | nil =>
    intro written i evs lgs h
    by_cases hs : env.stopA i
    · rw [copyLoop.eq_def] at h
      simp [hs, stopCleanup] at h
    · by_cases hps : env.pauseA i && env.stopB i
      · rw [copyLoop.eq_def] at h
        simp [hs, hps, stopCleanup] at h
      · rw [copyLoop.eq_def] at h ⊢
        simp [hs, hps, finishUp] at h ⊢
        exact h
  | cons c rest ih =>
    intro written i evs lgs h
    by_cases hs : env.stopA i
    · rw [copyLoop.eq_def] at h
      simp [hs, stopCleanup] at h
    · by_cases hps : env.pauseA i && env.stopB i
      · rw [copyLoop.eq_def] at h
        simp [hs, hps, stopCleanup] at h
      · cases hf : env.faultAt i with
        | some d =>
          rw [copyLoop.eq_def] at h
          simp [hs, hps, hf] at h
        | none =>
          rw [copyLoop.eq_def] at h ⊢
          simp only [hs, hps, hf, Bool.false_eq_true, ite_false] at h ⊢
          exact ih _ _ _ _ h

/-- C10: the source file is removed only when `delete_after_copy` is set
and the copy reached the success path (so a cancelled or failed outcome
never deletes the source), and when the deletion itself fails the
failure is logged while the outcome remains success. -/
theorem C10_source_only_on_success :
    (∀ (env : CopyEnv) (del : Bool) (src : List Nat)
        (tgt0 : Option (List Nat)) (sf tf : String),
      (copy_file_with_progress env del src tgt0 sf tf).sourceRemoved
          = true →
      del = true ∧ (copy_file_with_progress env del src tgt0 sf tf).status
          = CopyStatus.ok) ∧
    (∀ (env : CopyEnv) (src : List Nat) (tgt0 : Option (List Nat))
        (sf tf : String),
      env.benign → env.removeSourceOk = false →
      (copy_file_with_progress env true src tgt0 sf tf).status
          = CopyStatus.ok ∧
      (copy_file_with_progress env true src tgt0 sf tf).sourceRemoved
          = false ∧
      (copy_file_with_progress env true src tgt0 sf tf).logs
          = ["删除源文件失败: " ++ sf ++ " - " ++ env.removeSourceErr]) := by
  constructor
  · intro env del src tgt0 sf tf h
    unfold copy_file_with_progress at h ⊢
    obtain ⟨h1, _, h3⟩ := copyLoop_source_removed env del
      (openBase env src tgt0) src.length sf tf _ _ _ _ _ h
    exact ⟨h1, h3⟩
  · intro env src tgt0 sf tf hben hrm
    obtain ⟨hs, hp, hf, _, _, _⟩ := hben
    obtain ⟨evs2, heq⟩ := copyLoop_run_to_end env hs hp hf true
      (openBase env src tgt0) src.length sf tf
      (chunks (src.drop (openBase env src tgt0).length)) [] 0 [] []
    unfold copy_file_with_progress
    rw [heq]
    simp [finishUp, hrm]

theorem C10_witness :
    (true = true ∧
      (copy_file_with_progress quietEnv true [5] none ("s") ("t")).status
        = CopyStatus.ok) ∧
    ((copy_file_with_progress rmSourceFailEnv true [5] none ("s") ("t")).status
        = CopyStatus.ok ∧
      (copy_file_with_progress rmSourceFailEnv true [5] none ("s") ("t")).sourceRemoved
        = false ∧
      (copy_file_with_progress rmSourceFailEnv true [5] none ("s") ("t")).logs
        = ["删除源文件失败: " ++ "s" ++ " - " ++ rmSourceFailEnv.removeSourceErr]) := by
  constructor
  · exact C10_source_only_on_success.1 quietEnv true [5] none ("s") ("t")
      (by decide)
  · exact C10_source_only_on_success.2 rmSourceFailEnv [5] none ("s") ("t")
      ⟨fun _ => rfl, fun _ => rfl, fun _ => rfl, rfl, rfl, rfl⟩ rfl

lemma startLoop_stop (outStop : Nat → Bool) (verdict : Nat → Bool × String)
    (copyRes : Nat → CopyStatus × String) :
    ∀ (k : Nat) (files : List String) (idx c s f : Nat),
      k < files.length →
      (∀ j, j < k → outStop (idx + j) = false) →
      outStop (idx + k) = true →
      startLoop outStop verdict copyRes files idx c s f =
        stopRun (countsFrom verdict copyRes idx k (c, s, f)) := by
  intro k
  induction k with
  | zero =>
    intro files idx c s f hk hpre hstop
    cases files with
    | nil => simp at hk
    | cons x rest =>
      rw [Nat.add_zero] at hstop
      simp [startLoop, hstop, stopRun, countsFrom]
  | succ k ih =>
    intro files idx c s f hk hpre hstop
    cases files with
    | nil => simp at hk
    | cons x rest =>
      have h0 : outStop idx = false := by
        have h := hpre 0 (Nat.succ_pos k)
        rw [Nat.add_zero] at h
        exact h
      have hpre2 : ∀ j, j < k → outStop (idx + 1 + j) = false := by
        intro j hj
        have h := hpre (j + 1) (by omega)
        rw [show idx + (j + 1) = idx + 1 + j by omega] at h
        exact h
      have hstop2 : outStop (idx + 1 + k) = true := by
        rw [show idx + 1 + k = idx + (k + 1) by omega]
        exact hstop
      have hk2 : k < rest.length := by simpa using hk
      by_cases hv : (verdict idx).1
      · cases hcr : (copyRes idx).1 <;>
          simp [startLoop, h0, hv, hcr, ih rest (idx + 1) _ _ _ hk2 hpre2
            hstop2, countsFrom, countStep]
      · simp [startLoop, h0, hv, ih rest (idx + 1) _ _ _ hk2 hpre2 hstop2,
          countsFrom, countStep]

/-- C1 (amended): a run whose outer per-file loop observes the stop flag
at the boundary before file `k` emits exactly one completion summary
reflecting the partial counters, but `save_hash_db` is NOT called on
this path; the hash database is persisted only when the file list is
exhausted. -/
theorem C1_amended_thm (outStop : Nat → Bool) (verdict : Nat → Bool × String)
    (copyRes : Nat → CopyStatus × String) (files : List String) (k : Nat)
    (hk : k < files.length)
    (hpre : ∀ j, j < k → outStop j = false)
    (hstop : outStop k = true) :
    (start_copy outStop verdict copyRes files).savedHashDb = false ∧
    (start_copy outStop verdict copyRes files).completions =
      [stopSummary (countsFrom verdict copyRes 0 k (0, 0, 0)).1
        (countsFrom verdict copyRes 0 k (0, 0, 0)).2.1
        (countsFrom verdict copyRes 0 k (0, 0, 0)).2.2] := by
  have hlen : ¬ files.length = 0 := by omega
  have heq := startLoop_stop outStop verdict copyRes k files 0 0 0 0 hk
    (fun j hj => by
      rw [Nat.zero_add]
      exact hpre j hj)
    (by
      rw [Nat.zero_add]
      exact hstop)
  unfold start_copy
  rw [if_neg hlen, heq]
  exact ⟨rfl, rfl⟩

/-- C1 (counterexample): a run of one file that is terminated by the
stop flag before any file is processed emits the stop summary but does
not call `save_hash_db`, refuting the persistence part of the claim. -/
theorem C1_counterexample :
    (start_copy (fun _ => true) (fun _ => (true, "新文件"))
        (fun _ => (CopyStatus.ok, "复制成功")) ["a.txt"]).completions
      = [stopSummary 0 0 0] ∧
    (start_copy (fun _ => true) (fun _ => (true, "新文件"))
        (fun _ => (CopyStatus.ok, "复制成功")) ["a.txt"]).savedHashDb
      = false := by
  decide

theorem C1_witness :
    (start_copy (fun j => decide (j = 1)) (fun _ => (true, "新文件"))
        (fun _ => (CopyStatus.ok, "复制成功")) ["a", "b"]).savedHashDb
      = false ∧
    (start_copy (fun j => decide (j = 1)) (fun _ => (true, "新文件"))
        (fun _ => (CopyStatus.ok, "复制成功")) ["a", "b"]).completions
      = ["已停止。复制: 1, 跳过: 0, 失败: 0"] := by
  obtain ⟨h1, h2⟩ := C1_amended_thm (fun j => decide (j = 1))
    (fun _ => (true, "新文件")) (fun _ => (CopyStatus.ok, "复制成功"))
    ["a", "b"] 1 (by decide)
    (by
      intro j hj
      have hj0 : j = 0 := by omega
      subst hj0
      rfl)
    rfl
  exact ⟨h1, h2.trans (by decide)⟩

lemma startLoop_completions (outStop : Nat → Bool)
    (verdict : Nat → Bool × String)
    (copyRes : Nat → CopyStatus × String) :
    ∀ (files : List String) (idx c s f : Nat),
      (startLoop outStop verdict copyRes files idx c s f).completions.length
        = 1 := by
  intro files
  induction files with
  | nil =>
    intro idx c s f
    simp [startLoop]
  | cons x rest ih =>
    intro idx c s f
    by_cases h0 : outStop idx
    · simp [startLoop, h0]
    · by_cases hv : (verdict idx).1
      · cases hcr : (copyRes idx).1 <;> simp [startLoop, h0, hv, hcr, ih]
      · simp [startLoop, h0, hv, ih]

/-- C4: every `start_copy` run invokes `complete_callback` exactly once,
on every path — zero files found, stop-flag termination, or exhaustion
of the file list — for every behaviour of the stop flag and of the
per-file verdicts and copy outcomes. -/
theorem C4_always_completes (outStop : Nat → Bool)
    (verdict : Nat → Bool × String)
    (copyRes : Nat → CopyStatus × String) (files : List String) :
    (start_copy outStop verdict copyRes files).completions.length = 1 := by
  unfold start_copy
  by_cases h : files.length = 0
  · simp [h]
  · simp [h, startLoop_completions]

lemma startLoop_counts (outStop : Nat → Bool)
    (verdict : Nat → Bool × String)
    (copyRes : Nat → CopyStatus × String)
    (hns : ∀ j, outStop j = false)
    (hnc : ∀ j, (copyRes j).1 ≠ CopyStatus.cancelled) :
    ∀ (files : List String) (idx c s f : Nat),
      (startLoop outStop verdict copyRes files idx c s f).copied
        + (startLoop outStop verdict copyRes files idx c s f).skipped
        + (startLoop outStop verdict copyRes files idx c s f).failed
        = c + s + f + files.length := by
  intro files
  induction files with
  | nil =>
    intro idx c s f
    simp [startLoop]
  | cons x rest ih =>
    intro idx c s f
    by_cases hv : (verdict idx).1
    · cases hcr : (copyRes idx).1 with
      | ok =>
        simp only [startLoop, hns idx, Bool.false_eq_true, ite_false, hv,
          if_true, hcr]
        rw [ih]
        simp
        omega
      | cancelled => exact absurd hcr (hnc idx)
      | failed =>
        simp only [startLoop, hns idx, Bool.false_eq_true, ite_false, hv,
          if_true, hcr]
        rw [ih]
        simp
        omega
    · simp only [startLoop, hns idx, Bool.false_eq_true, ite_false, hv,
        Bool.false_eq_true, ite_false]
      rw [ih]
      simp
      omega

/-- C9: when the run processes the entire file list (the stop flag is
never raised) and no per-file copy returns the cancelled outcome, the
final counters satisfy copied + skipped + failed = number of files, each
file having incremented exactly one of the three counters. -/
theorem C9_counter_sum (outStop : Nat → Bool)
    (verdict : Nat → Bool × String)
    (copyRes : Nat → CopyStatus × String) (files : List String)
    (hns : ∀ j, outStop j = false)
    (hnc : ∀ j, (copyRes j).1 ≠ CopyStatus.cancelled) :
    (start_copy outStop verdict copyRes files).copied
      + (start_copy outStop verdict copyRes files).skipped
      + (start_copy outStop verdict copyRes files).failed
      = files.length := by
  unfold start_copy
  by_cases h : files.length = 0
  · simp [h]
  · rw [if_neg h]
    have hc := startLoop_counts outStop verdict copyRes hns hnc files 0 0 0 0
    simpa using hc

theorem C9_witness :
    (start_copy (fun _ => false) (fun j => (decide (j ≠ 1), "r"))
        (fun _ => (CopyStatus.failed, "m")) ["a", "b", "c"]).copied
      + (start_copy (fun _ => false) (fun j => (decide (j ≠ 1), "r"))
        (fun _ => (CopyStatus.failed, "m")) ["a", "b", "c"]).skipped
      + (start_copy (fun _ => false) (fun j => (decide (j ≠ 1), "r"))
        (fun _ => (CopyStatus.failed, "m")) ["a", "b", "c"]).failed
      = 3 := by
  have h := C9_counter_sum (fun _ => false) (fun j => (decide (j ≠ 1), "r"))
    (fun _ => (CopyStatus.failed, "m")) ["a", "b", "c"]
    (fun _ => rfl) (fun _ h => CopyStatus.noConfusion h)
  simpa using h

lemma pyInt_eq_floor (q : ℚ) (hq : 0 ≤ q) : pyInt q = ⌊q⌋ :=
  if_pos hq

/-- C5: in fast mode, with the target present and both stats readable,
the verdict is skip iff the sizes are equal and the mtimes truncated to
whole seconds (which equals their floor, the timestamps being
non-negative) are equal; consequently the verdict is invariant under any
change of the target mtime that preserves its floor, so mutating only
the sub-second part never forces a copy. -/
theorem C5_fast_mode (s t : PyStat) (hs : 0 ≤ s.st_mtime)
    (ht : 0 ≤ t.st_mtime) (h1 h2 : Option String) :
    ((should_copy_file "fast" true (some (s, t)) h1 h2).1 = false ↔
      (s.st_size = t.st_size ∧ ⌊s.st_mtime⌋ = ⌊t.st_mtime⌋)) ∧
    (∀ q : ℚ, 0 ≤ q → ⌊q⌋ = ⌊t.st_mtime⌋ →
      should_copy_file "fast" true
          (some (s, { t with st_mtime := q })) h1 h2
        = should_copy_file "fast" true (some (s, t)) h1 h2) := by
  have hpi : pyInt s.st_mtime = ⌊s.st_mtime⌋ := if_pos hs
  have hpt : pyInt t.st_mtime = ⌊t.st_mtime⌋ := if_pos ht
  constructor
  · constructor
    · intro hfalse
      by_cases hcond : s.st_size = t.st_size
          ∧ pyInt s.st_mtime = pyInt t.st_mtime
      · exact ⟨hcond.1, by rw [← hpi, ← hpt]; exact hcond.2⟩
      · exfalso
        simp [should_copy_file, hcond] at hfalse
    · rintro ⟨he, hf⟩
      have hcond : s.st_size = t.st_size
          ∧ pyInt s.st_mtime = pyInt t.st_mtime :=
        ⟨he, by rw [hpi, hpt]; exact hf⟩
      simp [should_copy_file, hcond]
  · intro q hq hfloor
    have hpq : pyInt q = ⌊q⌋ := if_pos hq
    have hq2 : pyInt q = pyInt t.st_mtime := by
      rw [hpq, hfloor, hpt]
    simp only [should_copy_file, hq2]

theorem C5_witness :
    (0 : ℚ) ≤ 51 / 10 ∧ (0 : ℚ) ≤ 59 / 10 ∧
    (should_copy_file "fast" true
        (some (⟨1024, 51 / 10⟩, ⟨1024, 59 / 10⟩)) none none).1 = false := by
  refine ⟨by norm_num, by norm_num, ?_⟩
  exact (C5_fast_mode ⟨1024, 51 / 10⟩ ⟨1024, 59 / 10⟩ (by norm_num)
    (by norm_num) none none).1.mpr ⟨rfl, by norm_num⟩
